import Mathlib

/-!
# Verification of the pregel graph-on-DynamoDB storage engine

Shallow embedding of the `a-h/pregel` repository: the range-key codec
(`rangefield/fields.go`), the record mapper and graph store (`record.go`,
`node.go`), and the per-request node batch loader (serving layer).

Go strings are modelled as byte sequences (`List Nat`, each element a byte
value).  Go maps with string keys are modelled as association lists; Go map
iteration order is unspecified, so properties about record *sets* are stated
up to `List.toFinset`.
-/

deriving instance DecidableEq for Except

/-- A Go string, viewed as its byte sequence. -/
abbrev Str := List Nat

/-- Bytes of an ASCII Lean string literal (used only for ASCII text, where
code points and UTF-8 bytes coincide). -/
def ascii (s : String) : Str := s.data.map Char.toNat

/-- All elements of the list are actual byte values. -/
def ByteSeq (s : Str) : Prop := ∀ b ∈ s, b < 256

instance : DecidablePred ByteSeq := fun s =>
  decidable_of_iff (∀ b ∈ s, b < 256) Iff.rfl

namespace Rangefield

/-! ## `net/url` path-segment escaping, as used by `rangefield/fields.go`

`encodeField` calls `url.PathEscape` on each segment; `decodeField` splits on
`'/'` and calls `url.PathUnescape` on each part, discarding the error. -/

/-- Go `url.shouldEscape(c, encodePathSegment)`: a byte is kept verbatim iff
it is alphanumeric, one of `- _ . ~`, or one of `$ & + : = @`. -/
def shouldEscape (c : Nat) : Bool :=
  !((97 ≤ c && c ≤ 122) || (65 ≤ c && c ≤ 90) || (48 ≤ c && c ≤ 57) ||
    c == 45 || c == 95 || c == 46 || c == 126 ||
    c == 36 || c == 38 || c == 43 || c == 58 || c == 61 || c == 64)

/-- Upper-case hex digit for a nibble, as in Go `"0123456789ABCDEF"[n]`. -/
def upperHexDigit (n : Nat) : Nat := if n < 10 then 48 + n else 55 + n

/-- Hex digit value, Go `ishex`/`unhex`: accepts `0-9`, `a-f`, `A-F`. -/
def unhex (c : Nat) : Option Nat :=
  if 48 ≤ c ∧ c ≤ 57 then some (c - 48)
  else if 97 ≤ c ∧ c ≤ 102 then some (c - 87)
  else if 65 ≤ c ∧ c ≤ 70 then some (c - 55)
  else none

/-- Escape one byte: kept verbatim, or `%XX` with upper-case hex. -/
def escapeByte (c : Nat) : Str :=
  if shouldEscape c then [37, upperHexDigit (c / 16), upperHexDigit (c % 16)]
  else [c]

/-- Go `url.PathEscape`: escape every byte of the string. -/
def pathEscape (s : Str) : Str := s.flatMap escapeByte

/-- Go `url.PathUnescape`: decode `%XX` triples, fail on a `%` not followed
by two hex digits; all other bytes pass through. -/
def pathUnescape : Str → Option Str
  | [] => some []
  | c :: rest =>
    if c = 37 then
      match rest with
      | h :: l :: rest2 =>
        match unhex h, unhex l with
        | some a, some b => (pathUnescape rest2).map fun t => (16 * a + b) :: t
        | _, _ => none
      | _ => none
    else (pathUnescape rest).map fun t => c :: t

/-- Go `strings.Split(v, "/")`. -/
def splitOnSlash : Str → List Str
  | [] => [[]]
  | c :: rest =>
    if c = 47 then [] :: splitOnSlash rest
    else
      match splitOnSlash rest with
      | [] => [[c]]
      | h :: t => (c :: h) :: t

/-- `decodeField` from `rangefield/fields.go`: split on `/`, then
`url.PathUnescape` each segment, *discarding the error* (an invalid escape
leaves the empty string, exactly as `vals[i], _ = url.PathUnescape(s)`). -/
def decodeField (v : Str) : List Str :=
  (splitOnSlash v).map fun s => (pathUnescape s).getD []

/-- `encodeField` from `rangefield/fields.go`: path-escape each value and
join with `/`. -/
def encodeField : List Str → Str
  | [] => []
  | [v] => pathEscape v
  | v :: rest => pathEscape v ++ 47 :: encodeField rest

/-- The six record kinds of `rangefield/fields.go`. -/
inductive RangeField where
  | Node : RangeField
  | NodeData (DataType : Str) : RangeField
  | Child (Child : Str) : RangeField
  | ChildData (Child : Str) (DataType : Str) : RangeField
  | Parent (Parent : Str) : RangeField
  | ParentData (Parent : Str) (DataType : Str) : RangeField
deriving DecidableEq

def bnode : Str := ascii "node"
def bdata : Str := ascii "data"
def bchild : Str := ascii "child"
def bparent : Str := ascii "parent"

/-- `Encode` methods of the six `RangeField` kinds. -/
def RangeField.Encode : RangeField → Str
  | .Node => encodeField [bnode]
  | .NodeData t => encodeField [bnode, bdata, t]
  | .Child c => encodeField [bchild, c]
  | .ChildData c t => encodeField [bchild, c, bdata, t]
  | .Parent p => encodeField [bparent, p]
  | .ParentData p t => encodeField [bparent, p, bdata, t]

/-- `decodeNodeField`: `node` alone, or `node/data/T`. -/
def decodeNodeField (parts : List Str) : Option RangeField :=
  match parts with
  | [] => none
  | p0 :: rest =>
    if p0 = bnode then
      match rest with
      | [] => some .Node
      | [p1, p2] => if p1 = bdata then some (.NodeData p2) else none
      | _ => none
    else none

/-- `decodeChildField`: `child/C`, or `child/C/data/T`. -/
def decodeChildField (parts : List Str) : Option RangeField :=
  match parts with
  | [] => none
  | p0 :: rest =>
    if p0 = bchild then
      match rest with
      | [c] => some (.Child c)
      | [c, p2, t] => if p2 = bdata then some (.ChildData c t) else none
      | _ => none
    else none

/-- `decodeParentField`: `parent/P`, or `parent/P/data/T`. -/
def decodeParentField (parts : List Str) : Option RangeField :=
  match parts with
  | [] => none
  | p0 :: rest =>
    if p0 = bparent then
      match rest with
      | [p] => some (.Parent p)
      | [p, p2, t] => if p2 = bdata then some (.ParentData p t) else none
      | _ => none
    else none

/-- Dispatch of `Decode` on the first decoded segment (the `switch parts[0]`
in `rangefield/fields.go`). -/
def decodeParts : List Str → Option RangeField
  | [] => none
  | p0 :: rest =>
    if p0 = bnode then decodeNodeField (p0 :: rest)
    else if p0 = bchild then decodeChildField (p0 :: rest)
    else if p0 = bparent then decodeParentField (p0 :: rest)
    else none

/-- `Decode` from `rangefield/fields.go`. -/
def Decode (s : Str) : Option RangeField :=
  decodeParts (decodeField s)

/-- Validity of a `RangeField`: every embedded string is a byte sequence. -/
def RangeField.ValidBytes : RangeField → Prop
  | .Node => True
  | .NodeData t => ByteSeq t
  | .Child c => ByteSeq c
  | .ChildData c t => ByteSeq c ∧ ByteSeq t
  | .Parent p => ByteSeq p
  | .ParentData p t => ByteSeq p ∧ ByteSeq t

instance : DecidablePred RangeField.ValidBytes := fun rf => by
  cases rf <;> simp [RangeField.ValidBytes] <;> infer_instance

/-! ## Round-trip lemmas for the escaping layer -/

theorem unhex_upperHexDigit : ∀ n < 16, unhex (upperHexDigit n) = some n := by
  decide

theorem pathUnescape_cons_safe {c : Nat} (h : c ≠ 37) (t : Str) :
    pathUnescape (c :: t) = (pathUnescape t).map fun r => c :: r := by
  match t with
  | [] => simp only [pathUnescape, if_neg h]
  | [x] => simp only [pathUnescape, if_neg h]
  | x :: y :: rest => simp only [pathUnescape, if_neg h]

theorem pathUnescape_triplet {a b : Nat} (ha : a < 16) (hb : b < 16) (t : Str) :
    pathUnescape (37 :: upperHexDigit a :: upperHexDigit b :: t) =
      (pathUnescape t).map fun r => (16 * a + b) :: r := by
  simp [pathUnescape, unhex_upperHexDigit a ha, unhex_upperHexDigit b hb]

theorem pathUnescape_pathEscape {s : Str} (h : ByteSeq s) :
    pathUnescape (pathEscape s) = some s := by
  induction s with
  | nil => rfl
  | cons c t ih =>
    have hc : c < 256 := h c (List.mem_cons_self c t)
    have ht : ByteSeq t := fun b hb => h b (List.mem_cons_of_mem c hb)
    have hesc : pathEscape (c :: t) = escapeByte c ++ pathEscape t := by
      simp [pathEscape]
    rw [hesc, escapeByte]
    by_cases hse : shouldEscape c
    · rw [if_pos hse]
      have h1 : c / 16 < 16 := Nat.div_lt_of_lt_mul (by omega)
      have h2 : c % 16 < 16 := Nat.mod_lt _ (by omega)
      simp only [List.cons_append, List.nil_append]
      rw [pathUnescape_triplet h1 h2, ih ht]
      simp [Nat.div_add_mod]
    · rw [if_neg hse]
      have hc37 : c ≠ 37 := by
        intro hEq
        subst hEq
        exact hse (by decide)
      simp only [List.cons_append, List.nil_append]
      rw [pathUnescape_cons_safe hc37, ih ht]
      rfl

theorem upperHexDigit_ne_slash (n : Nat) : upperHexDigit n ≠ 47 := by
  unfold upperHexDigit
  split <;> omega

theorem escapeByte_ne_slash {c d : Nat} (h : d ∈ escapeByte c) : d ≠ 47 := by
  unfold escapeByte at h
  by_cases hse : shouldEscape c
  · rw [if_pos hse] at h
    simp only [List.mem_cons, List.not_mem_nil, or_false] at h
    rcases h with h | h | h
    · omega
    · rw [h]
      exact upperHexDigit_ne_slash _
    · rw [h]
      exact upperHexDigit_ne_slash _
  · rw [if_neg hse] at h
    simp only [List.mem_cons, List.not_mem_nil, or_false] at h
    rw [h]
    intro hEq
    subst hEq
    exact hse (by decide)

theorem pathEscape_ne_slash {s : Str} {d : Nat} (h : d ∈ pathEscape s) : d ≠ 47 := by
  rw [pathEscape, List.mem_flatMap] at h
  obtain ⟨c, _, hd⟩ := h
  exact escapeByte_ne_slash hd

theorem splitOnSlash_no_slash {s : Str} (h : ∀ c ∈ s, c ≠ 47) :
    splitOnSlash s = [s] := by
  induction s with
  | nil => rfl
  | cons c t ih =>
    have hc : c ≠ 47 := h c (List.mem_cons_self c t)
    have ht : ∀ b ∈ t, b ≠ 47 := fun b hb => h b (List.mem_cons_of_mem c hb)
    rw [splitOnSlash, if_neg hc, ih ht]

theorem splitOnSlash_append {a : Str} (b : Str) (h : ∀ c ∈ a, c ≠ 47) :
    splitOnSlash (a ++ 47 :: b) = a :: splitOnSlash b := by
  induction a with
  | nil => simp [splitOnSlash]
  | cons c t ih =>
    have hc : c ≠ 47 := h c (List.mem_cons_self c t)
    have ht : ∀ x ∈ t, x ≠ 47 := fun x hx => h x (List.mem_cons_of_mem c hx)
    rw [List.cons_append, splitOnSlash, if_neg hc, ih ht]

theorem decodeField_pathEscape_single {v : Str} (h : ByteSeq v) :
    decodeField (pathEscape v) = [v] := by
  rw [decodeField, splitOnSlash_no_slash (fun c hc => pathEscape_ne_slash hc)]
  simp [pathUnescape_pathEscape h]

theorem decodeField_encodeField :
    ∀ segs : List Str, (∀ s ∈ segs, ByteSeq s) → segs ≠ [] →
      decodeField (encodeField segs) = segs
  | [], _, hne => absurd rfl hne
  | [v], h, _ => decodeField_pathEscape_single (h v (by simp))
  | v :: w :: rest, h, _ => by
    have hv : ByteSeq v := h v (by simp)
    have hrest : ∀ s ∈ w :: rest, ByteSeq s := fun s hs =>
      h s (List.mem_cons_of_mem v hs)
    have henc : encodeField (v :: w :: rest) =
        pathEscape v ++ 47 :: encodeField (w :: rest) := rfl
    rw [henc, decodeField,
      splitOnSlash_append _ (fun c hc => pathEscape_ne_slash hc)]
    have ihr := decodeField_encodeField (w :: rest) hrest (by simp)
    rw [decodeField] at ihr
    simp only [List.map_cons, pathUnescape_pathEscape hv, Option.getD_some, ihr]

/-- C3: for every value of each of the six RangeField kinds, with arbitrary
ID and type-name byte strings (including ones containing `/` and non-ASCII
bytes), `Decode (Encode x)` returns `x` with ok = true. -/
theorem Decode_Encode_roundtrip (rf : RangeField) (h : rf.ValidBytes) :
    Decode rf.Encode = some rf := by
  cases rf with
  | Node => decide
  | NodeData t =>
    have hb : ∀ s ∈ [bnode, bdata, t], ByteSeq s := by
      intro s hs
      simp only [List.mem_cons, List.not_mem_nil, or_false] at hs
      rcases hs with rfl | rfl | rfl
      · decide
      · decide
      · exact h
    rw [RangeField.Encode, Decode, decodeField_encodeField _ hb (by simp)]
    simp [decodeParts, decodeNodeField]
  | Child c =>
    have hb : ∀ s ∈ [bchild, c], ByteSeq s := by
      intro s hs
      simp only [List.mem_cons, List.not_mem_nil, or_false] at hs
      rcases hs with rfl | rfl
      · decide
      · exact h
    rw [RangeField.Encode, Decode, decodeField_encodeField _ hb (by simp)]
    simp [decodeParts, decodeChildField, bchild, bnode, ascii]
  | ChildData c t =>
    have hb : ∀ s ∈ [bchild, c, bdata, t], ByteSeq s := by
      intro s hs
      simp only [List.mem_cons, List.not_mem_nil, or_false] at hs
      rcases hs with rfl | rfl | rfl | rfl
      · decide
      · exact h.1
      · decide
      · exact h.2
    rw [RangeField.Encode, Decode, decodeField_encodeField _ hb (by simp)]
    simp [decodeParts, decodeChildField, bchild, bnode, bdata, ascii]
  | Parent p =>
    have hb : ∀ s ∈ [bparent, p], ByteSeq s := by
      intro s hs
      simp only [List.mem_cons, List.not_mem_nil, or_false] at hs
      rcases hs with rfl | rfl
      · decide
      · exact h
    rw [RangeField.Encode, Decode, decodeField_encodeField _ hb (by simp)]
    simp [decodeParts, decodeParentField, bparent, bnode, bchild, ascii]
  | ParentData p t =>
    have hb : ∀ s ∈ [bparent, p, bdata, t], ByteSeq s := by
      intro s hs
      simp only [List.mem_cons, List.not_mem_nil, or_false] at hs
      rcases hs with rfl | rfl | rfl | rfl
      · decide
      · exact h.1
      · decide
      · exact h.2
    rw [RangeField.Encode, Decode, decodeField_encodeField _ hb (by simp)]
    simp [decodeParts, decodeParentField, bparent, bnode, bchild, bdata, ascii]

/-- Witness for C3: a child ID containing the UTF-8 bytes of "中文" and a
type name containing `/` both round-trip. -/
theorem Decode_Encode_roundtrip_witness :
    RangeField.ValidBytes
      (.ChildData [228, 184, 173, 230, 150, 135] (ascii "a/b")) ∧
    Decode (RangeField.Encode
        (.ChildData [228, 184, 173, 230, 150, 135] (ascii "a/b"))) =
      some (.ChildData [228, 184, 173, 230, 150, 135] (ascii "a/b")) :=
  ⟨by decide, Decode_Encode_roundtrip _ (by decide)⟩

/-- C4: evaluation of `Decode` at the claim's inputs.  The five listed
malformed literals are rejected, but a string carrying an invalid
percent-escape in an ID segment is *not* rejected: `decodeField` discards the
`url.PathUnescape` error (`vals[i], _ = url.PathUnescape(s)`), so
`Decode "child/%zz"` returns ok with the guessed value `Child{Child: ""}`.
The same slip makes `Decode "parent/"` return `Parent{Parent: ""}` although
the repository's own `TestDecodeNoParts` lists `"parent/"` as undecodable. -/
theorem Decode_accepts_invalid_escape :
    Decode (ascii "") = none ∧
    Decode (ascii "garbage") = none ∧
    Decode (ascii "unknown/node") = none ∧
    Decode (ascii "node/") = none ∧
    Decode (ascii "child//x") = none ∧
    Decode (ascii "child/%zz") = some (.Child []) ∧
    Decode (ascii "parent/") = some (.Parent []) := by
  decide

end Rangefield

namespace Pregel

open Rangefield

/-! ## Data model (`node.go`, `part of the pregel package`)

Go `map[string]interface{}` data maps are modelled as association lists
(`List (Str × V)`); Go map iteration order is unspecified, so statements
about the produced record *sets* are made up to `List.toFinset`. -/

/-- `pregel.Edge`: a relationship to another node, with its own data map. -/
structure Edge (V : Type) where
  ID : Str
  Data : List (Str × V) := []
deriving DecidableEq

/-- `pregel.Node`: ID, typed data map, child edges and parent edges. -/
structure Node (V : Type) where
  ID : Str := []
  Data : List (Str × V) := []
  Children : List (Edge V) := []
  Parents : List (Edge V) := []
deriving DecidableEq

/-! ## Physical records (`record.go`)

A DynamoDB item is `map[string]*dynamodb.AttributeValue`.  The model keeps
the three attributes the code reads by name (`id`, `rng`, `t`) and treats the
attribute map produced by `dynamodbattribute.MarshalMap` for a data value as
an opaque payload (the external AWS SDK marshaller is abstracted as total).
For each named attribute, `none` models a missing key (the nil pointer a Go
map lookup yields), `some none` an `AttributeValue` whose `S` pointer is nil,
and `some (some s)` a set string. -/

structure Item (V : Type) where
  idAttr : Option (Option Str) := none
  rngAttr : Option (Option Str) := none
  tAttr : Option (Option Str) := none
  payload : Option V := none
deriving DecidableEq

def fieldID : Str := ascii "id"
def fieldRange : Str := ascii "rng"
def fieldRecordDataType : Str := ascii "t"

/-- `newRecord`: bare record carrying only the partition id and range key. -/
def newRecord {V : Type} (id : Str) (rangeKey : RangeField) : Item V :=
  { idAttr := some (some id), rngAttr := some (some rangeKey.Encode) }

/-- `newNodeRecord`: the node marker record. -/
def newNodeRecord {V : Type} (id : Str) : Item V := newRecord id .Node

/-- `newDataRecord`: marshalled value plus id, range key and type tag. -/
def newDataRecord {V : Type} (id : Str) (rangeKey : RangeField) (key : Str)
    (value : V) : Item V :=
  { idAttr := some (some id), rngAttr := some (some rangeKey.Encode),
    tAttr := some (some key), payload := some value }

/-- `newChildRecord`: Child marker on the parent's partition plus one
ChildData record per data entry. -/
def newChildRecord {V : Type} (parent child : Str) (data : List (Str × V)) :
    List (Item V) :=
  newRecord parent (.Child child) ::
    data.map fun kv => newDataRecord parent (.ChildData child kv.1) kv.1 kv.2

/-- `newParentRecord`: Parent marker on the child's partition plus one
ParentData record per data entry. -/
def newParentRecord {V : Type} (parent child : Str) (data : List (Str × V)) :
    List (Item V) :=
  newRecord child (.Parent parent) ::
    data.map fun kv => newDataRecord child (.ParentData parent kv.1) kv.1 kv.2

/-! ## Record conversion (`node.go`) -/

/-- `convertNodeDataToRecords`: one NodeData record per data entry. -/
def convertNodeDataToRecords {V : Type} (id : Str) (d : List (Str × V)) :
    List (Item V) :=
  d.map fun kv => newDataRecord id (.NodeData kv.1) kv.1 kv.2

/-- `convertEdgesToRecords`: for each edge, the records of both creators. -/
def convertEdgesToRecords {V : Type} (principal : Str) (edges : List (Edge V))
    (fromPrincipal toPrincipal : Str → Str → List (Str × V) → List (Item V)) :
    List (Item V) :=
  edges.flatMap fun e =>
    fromPrincipal principal e.ID e.Data ++ toPrincipal principal e.ID e.Data

/-- `convertNodeEdgesToRecords`: forward + mirror records for every child
edge, and symmetrically for every parent edge (the mirror direction builds a
fresh edge to `id` carrying the parent edge's data). -/
def convertNodeEdgesToRecords {V : Type} (id : Str)
    (children parents : List (Edge V)) : List (Item V) :=
  convertEdgesToRecords id children newChildRecord newParentRecord ++
    parents.flatMap fun parent =>
      convertEdgesToRecords parent.ID [{ ID := id, Data := parent.Data }]
        newParentRecord newChildRecord

/-- `convertToRecords`: node marker, NodeData records, then edge records. -/
def convertToRecords {V : Type} (n : Node V) : List (Item V) :=
  newNodeRecord n.ID ::
    (convertNodeDataToRecords n.ID n.Data ++
      convertNodeEdgesToRecords n.ID n.Children n.Parents)

/-! ## Errors, client calls and the store (`node.go`)

Go errors are compared by identity in the code and its tests; the wrapped
errors produced by `fmt.Errorf` at the `Store.Get` call sites are modelled by
dedicated wrapping constructors. -/

inductive GoErr where
  | missingNodeID : GoErr
  | recordIsMissingARangeField : GoErr
  | recordTypeFieldIsNil : GoErr
  | recordTypeFieldUnknown : GoErr
  | clientErr (code : Nat) : GoErr
  | wrapGetQuery (e : GoErr) : GoErr
  | wrapGetUnmarshal (e : GoErr) : GoErr
deriving DecidableEq

/-- A delete key as built by `getID`: partition id plus encoded range key. -/
structure DelKey where
  id : Str
  rng : Str
deriving DecidableEq

/-- `getID` from `node.go`. -/
def getID (id : Str) (rangeKey : RangeField) : DelKey := ⟨id, rangeKey.Encode⟩

/-- One call made to the KVClient collaborator (the `DB` interface). -/
inductive DBCall (V : Type) where
  | batchPut (items : List (Item V)) : DBCall V
  | batchDelete (keys : List DelKey) : DBCall V
  | queryByID (idField idValue : Str) : DBCall V
deriving DecidableEq

/-- Deterministic stub of the KVClient collaborator: the records the next
query returns, and the error each method reports. -/
structure DBStub (V : Type) where
  queryItems : List (Item V) := []
  queryErr : Option GoErr := none
  putErr : Option GoErr := none
  deleteErr : Option GoErr := none
deriving DecidableEq

/-- Outcome of Go code that may dereference a nil pointer. -/
inductive PanicOr (α : Type) where
  | panic : PanicOr α
  | ok (val : α) : PanicOr α
deriving DecidableEq

/-- Go map assignment `m[k] = v` on an association list. -/
def mapSet {V : Type} (m : List (Str × V)) (k : Str) (v : V) : List (Str × V) :=
  match m with
  | [] => [(k, v)]
  | kv :: rest => if kv.1 = k then (k, v) :: rest else kv :: mapSet rest k v

/-- `Node.GetChild`: first child edge with the given ID, if any. -/
def Node.GetChild {V : Type} (n : Node V) (id : Str) : Option (Edge V) :=
  n.Children.find? fun e => decide (e.ID = id)

/-- `Node.GetParent`: first parent edge with the given ID, if any. -/
def Node.GetParent {V : Type} (n : Node V) (id : Str) : Option (Edge V) :=
  n.Parents.find? fun e => decide (e.ID = id)

/-- Mutation through the `*Edge` pointer `GetChild`/`GetParent` returns:
update the first edge with the given ID in place. -/
def updateEdge {V : Type} (es : List (Edge V)) (id : Str) (f : Edge V → Edge V) :
    List (Edge V) :=
  match es with
  | [] => []
  | e :: rest => if e.ID = id then f e :: rest else e :: updateEdge rest id f

/-- `Store.populateNodeFromRecord`.  `decodeVal` stands for the composition
of the data-type registry lookup (whose generic-map fallback never fails) and
`dynamodbattribute.UnmarshalMap` applied to the item minus its `id`, `rng`
and `t` attributes, i.e. to the payload; the external unmarshaller is
abstracted as total.  The unguarded Go dereferences `*itm[fieldID].S` and
`*itm[fieldRecordDataType].S` surface as `.panic` when the attribute is
missing or its `S` pointer is nil. -/
def populateNodeFromRecord {V : Type} (decodeVal : Option V → V) (itm : Item V)
    (n : Node V) : PanicOr (Except GoErr (Node V)) :=
  match itm.rngAttr with
  | none => .ok (.error .recordIsMissingARangeField)
  | some none => .ok (.error .recordTypeFieldIsNil)
  | some (some rs) =>
    match Decode rs with
    | none => .ok (.error .recordTypeFieldUnknown)
    | some rf =>
      match rf with
      | .Node =>
        match itm.idAttr with
        | some (some i) => .ok (.ok { n with ID := i })
        | _ => .panic
      | .NodeData _ =>
        match itm.tAttr with
        | some (some typeName) =>
          .ok (.ok { n with Data := mapSet n.Data typeName (decodeVal itm.payload) })
        | _ => .panic
      | .Child cid =>
        .ok (.ok (if (n.GetChild cid).isSome then n
          else { n with Children := n.Children ++ [{ ID := cid }] }))
      | .ChildData cid _ =>
        let n' := if (n.GetChild cid).isSome then n
          else { n with Children := n.Children ++ [{ ID := cid }] }
        match itm.tAttr with
        | some (some typeName) =>
          .ok (.ok { n' with Children := updateEdge n'.Children cid fun e =>
            { e with Data := mapSet e.Data typeName (decodeVal itm.payload) } })
        | _ => .panic
      | .Parent pid =>
        .ok (.ok (if (n.GetParent pid).isSome then n
          else { n with Parents := n.Parents ++ [{ ID := pid }] }))
      | .ParentData pid _ =>
        let n' := if (n.GetParent pid).isSome then n
          else { n with Parents := n.Parents ++ [{ ID := pid }] }
        match itm.tAttr with
        | some (some typeName) =>
          .ok (.ok { n' with Parents := updateEdge n'.Parents pid fun e =>
            { e with Data := mapSet e.Data typeName (decodeVal itm.payload) } })
        | _ => .panic

/-- The record fold inside `Store.Get`, aborting at the first error. -/
def foldRecords {V : Type} (decodeVal : Option V → V) :
    List (Item V) → Node V → PanicOr (Node V × Option GoErr)
  | [], n => .ok (n, none)
  | itm :: rest, n =>
    match populateNodeFromRecord decodeVal itm n with
    | .panic => .panic
    | .ok (.error e) => .ok (n, some e)
    | .ok (.ok n') => foldRecords decodeVal rest n'

/-- Result triple of `Store.Get`. -/
structure GetResult (V : Type) where
  n : Node V
  ok : Bool
  err : Option GoErr
deriving DecidableEq

/-- `Store.Get`: empty id returns immediately; otherwise one QueryByID,
then the record fold; `ok` is `len(n.ID) > 0`. -/
def StoreGet {V : Type} (decodeVal : Option V → V) (db : DBStub V) (id : Str) :
    PanicOr (GetResult V × List (DBCall V)) :=
  if id = [] then .ok (⟨{}, false, none⟩, [])
  else
    match db.queryErr with
    | some e => .ok (⟨{}, false, some (.wrapGetQuery e)⟩, [.queryByID fieldID id])
    | none =>
      match foldRecords decodeVal db.queryItems {} with
      | .panic => .panic
      | .ok (n, some e) =>
        .ok (⟨n, false, some (.wrapGetUnmarshal e)⟩, [.queryByID fieldID id])
      | .ok (n, none) =>
        .ok (⟨n, decide (n.ID ≠ []), none⟩, [.queryByID fieldID id])

/-- The validation-and-conversion loop of `Store.Put`: the first node with an
empty ID aborts with `ErrMissingNodeID` before any client call. -/
def convertAll {V : Type} : List (Node V) → Except GoErr (List (Item V))
  | [] => .ok []
  | n :: rest =>
    if n.ID = [] then .error .missingNodeID
    else (convertAll rest).map fun rs => convertToRecords n ++ rs

/-- `Store.Put`: convert every node, then exactly one BatchPut. -/
def StorePut {V : Type} (db : DBStub V) (nodes : List (Node V)) :
    Except GoErr Unit × List (DBCall V) :=
  match convertAll nodes with
  | .error e => (.error e, [])
  | .ok records =>
    match db.putErr with
    | some e => (.error e, [.batchPut records])
    | none => (.ok (), [.batchPut records])

/-- `Store.PutNodeData`: validate the id, then `Put(NewNode(id) with data)`. -/
def StorePutNodeData {V : Type} (db : DBStub V) (id : Str)
    (data : List (Str × V)) : Except GoErr Unit × List (DBCall V) :=
  if id = [] then (.error .missingNodeID, [])
  else StorePut db [{ ID := id, Data := data }]

/-- `Store.PutEdges`: validate the parent id, convert just these edges (nil
parents), one BatchPut. -/
def StorePutEdges {V : Type} (db : DBStub V) (parent : Str)
    (edges : List (Edge V)) : Except GoErr Unit × List (DBCall V) :=
  if parent = [] then (.error .missingNodeID, [])
  else
    let records := convertNodeEdgesToRecords parent edges []
    match db.putErr with
    | some e => (.error e, [.batchPut records])
    | none => (.ok (), [.batchPut records])

/-- `Store.PutEdgeData`: validate both ids, then delegate to `PutEdges`. -/
def StorePutEdgeData {V : Type} (db : DBStub V) (parent child : Str)
    (data : List (Str × V)) : Except GoErr Unit × List (DBCall V) :=
  if parent = [] ∨ child = [] then (.error .missingNodeID, [])
  else StorePutEdges db parent [{ ID := child, Data := data }]

/-- The delete key set enumerated by `Store.Delete` from the freshly read
node: marker, NodeData keys, and forward+mirror (+ data pair) keys per edge. -/
def deleteKeysFor {V : Type} (n : Node V) : List DelKey :=
  getID n.ID .Node ::
    ((n.Data.map fun kv => getID n.ID (.NodeData kv.1)) ++
      (n.Children.flatMap fun e =>
        [getID n.ID (.Child e.ID), getID e.ID (.Parent n.ID)] ++
          e.Data.flatMap fun kv =>
            [getID n.ID (.ChildData e.ID kv.1), getID e.ID (.ParentData n.ID kv.1)]) ++
      (n.Parents.flatMap fun e =>
        [getID n.ID (.Parent e.ID), getID e.ID (.Child n.ID)] ++
          e.Data.flatMap fun kv =>
            [getID n.ID (.ParentData e.ID kv.1), getID e.ID (.ChildData n.ID kv.1)]))

/-- `Store.Delete`: Get, no-op when not found, else one BatchDelete. -/
def StoreDelete {V : Type} (decodeVal : Option V → V) (db : DBStub V)
    (id : Str) : PanicOr (Option GoErr × List (DBCall V)) :=
  match StoreGet decodeVal db id with
  | .panic => .panic
  | .ok (res, calls) =>
    match res.err with
    | some e => .ok (some e, calls)
    | none =>
      if res.ok = false then .ok (none, calls)
      else
        match db.deleteErr with
        | some e => .ok (some e, calls ++ [.batchDelete (deleteKeysFor res.n)])
        | none => .ok (none, calls ++ [.batchDelete (deleteKeysFor res.n)])

/-- The key set `Store.DeleteEdge` accumulates: forward, mirror and data-pair
keys of every child edge whose ID matches `child` (others are skipped). -/
def deleteEdgeKeys {V : Type} (n : Node V) (child : Str) : List DelKey :=
  n.Children.flatMap fun e =>
    if e.ID = child then
      [getID n.ID (.Child e.ID), getID e.ID (.Parent n.ID)] ++
        e.Data.flatMap fun kv =>
          [getID n.ID (.ChildData e.ID kv.1), getID e.ID (.ParentData n.ID kv.1)]
    else []

/-- `Store.DeleteEdge`: Get the parent; no-op when not found; otherwise it
calls BatchDelete *unconditionally*, even when no child matched and the
accumulated key list is empty. -/
def StoreDeleteEdge {V : Type} (decodeVal : Option V → V) (db : DBStub V)
    (parent child : Str) : PanicOr (Option GoErr × List (DBCall V)) :=
  match StoreGet decodeVal db parent with
  | .panic => .panic
  | .ok (res, calls) =>
    match res.err with
    | some e => .ok (some e, calls)
    | none =>
      if res.ok = false then .ok (none, calls)
      else
        match db.deleteErr with
        | some e => .ok (some e, calls ++ [.batchDelete (deleteEdgeKeys res.n child)])
        | none => .ok (none, calls ++ [.batchDelete (deleteEdgeKeys res.n child)])

/-! ## Claim theorems about the record conversion and the Put family -/

/-- C1: for every parent ID `p`, child ID `c` and edge data map `d`, the
record set produced by edge conversion for node `p` carrying child edge
`(c, d)` is exactly the record set produced for node `c` carrying parent
edge `(p, d)` — both consist of the forward Child marker on `p`'s partition,
the mirror Parent marker on `c`'s partition, and, per data entry, a
ChildData record on `p`'s partition together with a duplicate ParentData
record on `c`'s partition: the bidirectional consistency invariant is
established at conversion time. -/
theorem convertNodeEdges_bidirectional {V : Type} [DecidableEq V] (p c : Str)
    (d : List (Str × V)) :
    convertNodeEdgesToRecords p [{ ID := c, Data := d }] [] =
      newChildRecord p c d ++ newParentRecord p c d ∧
    convertNodeEdgesToRecords c [] [{ ID := p, Data := d }] =
      newParentRecord p c d ++ newChildRecord p c d ∧
    (convertNodeEdgesToRecords p [{ ID := c, Data := d }] []).toFinset =
      (convertNodeEdgesToRecords c [] [{ ID := p, Data := d }]).toFinset := by
  refine ⟨?_, ?_, ?_⟩
  · simp [convertNodeEdgesToRecords, convertEdgesToRecords]
  · simp [convertNodeEdgesToRecords, convertEdgesToRecords]
  · simp only [convertNodeEdgesToRecords, convertEdgesToRecords,
      List.flatMap_cons, List.flatMap_nil, List.append_nil, List.nil_append,
      List.toFinset_append]
    exact Finset.union_comm _ _

/-- C2: `Put` of node "parentNode" with one child edge to "childNode"
carrying the single data entry "testEdgeData" issues exactly one BatchPut
holding exactly the five records `(parentNode, "node")`,
`(parentNode, "child/childNode")`,
`(parentNode, "child/childNode/data/testEdgeData")`,
`(childNode, "parent/parentNode")` and
`(childNode, "parent/parentNode/data/testEdgeData")`. -/
theorem put_literal_five_records :
    StorePut ({} : DBStub Nat)
      [{ ID := ascii "parentNode",
         Children := [{ ID := ascii "childNode",
                        Data := [(ascii "testEdgeData", 123)] }] }] =
    (.ok (), [.batchPut
      [ { idAttr := some (some (ascii "parentNode")),
          rngAttr := some (some (ascii "node")) },
        { idAttr := some (some (ascii "parentNode")),
          rngAttr := some (some (ascii "child/childNode")) },
        { idAttr := some (some (ascii "parentNode")),
          rngAttr := some (some (ascii "child/childNode/data/testEdgeData")),
          tAttr := some (some (ascii "testEdgeData")), payload := some 123 },
        { idAttr := some (some (ascii "childNode")),
          rngAttr := some (some (ascii "parent/parentNode")) },
        { idAttr := some (some (ascii "childNode")),
          rngAttr := some (some (ascii "parent/parentNode/data/testEdgeData")),
          tAttr := some (some (ascii "testEdgeData")), payload := some 123 } ]]) := by
  decide

/-- C7 counterexample: `PutNodeData("id", one entry)` issues a BatchPut whose
first record is the node marker `(id, "node")` — which is not a NodeData
record — so the record set does not consist of NodeData records only.
(`PutNodeData` delegates to `Put(NewNode(id) with data)` and `Put` always
prepends `newNodeRecord`; the repository's own `TestStorePutNodeData` expects
the marker as well.) -/
theorem putNodeData_marker_counterexample :
    StorePutNodeData ({} : DBStub Nat) (ascii "id") [(ascii "testNodeData", 7)] =
      (.ok (), [.batchPut
        [ { idAttr := some (some (ascii "id")),
            rngAttr := some (some (ascii "node")) },
          { idAttr := some (some (ascii "id")),
            rngAttr := some (some (ascii "node/data/testNodeData")),
            tAttr := some (some (ascii "testNodeData")), payload := some 7 } ]]) ∧
    ∀ t : Str, (ascii "node" : Str) ≠ (RangeField.NodeData t).Encode := by
  constructor
  · decide
  · intro t hEq
    have hb : pathEscape bnode = bnode := by decide
    have hd : pathEscape bdata = bdata := by decide
    have he : (RangeField.NodeData t).Encode =
        bnode ++ 47 :: (bdata ++ 47 :: pathEscape t) := by
      simp [RangeField.Encode, encodeField, hb, hd]
    rw [he] at hEq
    have hlen := congrArg List.length hEq
    rw [List.length_append, List.length_cons, List.length_append,
      List.length_cons] at hlen
    have l1 : (ascii "node").length = 4 := by decide
    have l2 : (bnode : Str).length = 4 := by decide
    have l3 : (bdata : Str).length = 4 := by decide
    omega

/-- C7 amended: for every non-empty id and data map, `PutNodeData` issues
exactly one BatchPut whose record set is the node marker record plus one
NodeData record per entry of the data map — no edge records. -/
theorem putNodeData_marker_and_data {V : Type} [DecidableEq V] (db : DBStub V)
    (id : Str) (data : List (Str × V)) (h : id ≠ []) (hput : db.putErr = none) :
    StorePutNodeData db id data =
      (.ok (), [.batchPut (newNodeRecord id ::
        data.map fun kv => newDataRecord id (.NodeData kv.1) kv.1 kv.2)]) := by
  simp [StorePutNodeData, h, StorePut, convertAll, convertToRecords,
    convertNodeDataToRecords, convertNodeEdgesToRecords,
    convertEdgesToRecords, hput, Except.map]

/-- Witness for C7 amended at a concrete id and a one-entry data map. -/
theorem putNodeData_marker_and_data_witness :
    (ascii "id" : Str) ≠ [] ∧
    StorePutNodeData ({} : DBStub Nat) (ascii "id") [(ascii "T", 3)] =
      (.ok (), [.batchPut [newNodeRecord (ascii "id"),
        newDataRecord (ascii "id") (.NodeData (ascii "T")) (ascii "T") 3]]) :=
  ⟨by decide,
    putNodeData_marker_and_data {} (ascii "id") [(ascii "T", 3)] (by decide) rfl⟩

/-! ## Validation, Get semantics, and delete behavior -/

/-- Shared concrete payload decoder used by concrete evaluations. -/
def dv0 : Option Nat → Nat := fun o => o.getD 0

theorem convertAll_member_empty {V : Type} [DecidableEq V] :
    ∀ (nodes : List (Node V)) (n : Node V), n ∈ nodes → n.ID = [] →
      convertAll nodes = .error .missingNodeID
  | m :: rest, n, hmem, hid => by
    simp only [convertAll]
    by_cases hm : m.ID = []
    · rw [if_pos hm]
    · rw [if_neg hm]
      rcases List.mem_cons.mp hmem with rfl | htail
      · exact absurd hid hm
      · rw [convertAll_member_empty rest n htail hid]
        rfl

theorem StoreGet_shape {V : Type} [DecidableEq V] (dv : Option V → V)
    (db : DBStub V) (id : Str) (hid : id ≠ []) :
    StoreGet dv db id = .panic ∨
    ∃ res, StoreGet dv db id = .ok (res, [.queryByID fieldID id]) := by
  rw [StoreGet, if_neg hid]
  cases hq : db.queryErr with
  | none =>
    cases hf : foldRecords dv db.queryItems {} with
    | panic => exact .inl rfl
    | ok pr =>
      obtain ⟨n, oe⟩ := pr
      cases oe with
      | none => exact .inr ⟨_, rfl⟩
      | some e2 => exact .inr ⟨_, rfl⟩
  | some e => exact .inr ⟨_, rfl⟩

/-- C6 counterexample: `Delete("")` returns a nil error and makes no client
call, not `ErrMissingNodeID`: `Get("")` short-circuits with ok=false before
any query, and `Delete` treats not-found as success.  (`TestStoreDelete`'s
"Missing node ID" case also expects a nil error, while `TestStoreDeleteEdge`
expects `ErrMissingNodeID` for empty IDs — the code returns nil there too, so
that test disagrees with the code.) -/
theorem delete_emptyID_nil_counterexample :
    StoreDelete dv0 ({} : DBStub Nat) [] = .ok (none, []) ∧
    PanicOr.ok ((none : Option GoErr), ([] : List (DBCall Nat))) ≠
      .ok (some .missingNodeID, []) := by
  decide

/-- C6 amended: `Put`, `PutNodeData`, `PutEdges` and `PutEdgeData` return
`ErrMissingNodeID` immediately on an empty node/edge ID, with no KVClient
call.  `Delete` and `DeleteEdge` with an empty node/parent ID instead return
a nil error (the empty ID reads as not-found) with no KVClient call; and
`DeleteEdge` with an empty child ID is not validated at all — it issues the
`QueryByID` call. -/
theorem emptyID_validation {V : Type} [DecidableEq V] (decodeVal : Option V → V) :
    (∀ (db : DBStub V) (nodes : List (Node V)) (n : Node V),
        n ∈ nodes → n.ID = [] → StorePut db nodes = (.error .missingNodeID, [])) ∧
    (∀ (db : DBStub V) (data : List (Str × V)),
        StorePutNodeData db [] data = (.error .missingNodeID, [])) ∧
    (∀ (db : DBStub V) (edges : List (Edge V)),
        StorePutEdges db [] edges = (.error .missingNodeID, [])) ∧
    (∀ (db : DBStub V) (p c : Str) (data : List (Str × V)), p = [] ∨ c = [] →
        StorePutEdgeData db p c data = (.error .missingNodeID, [])) ∧
    (∀ db : DBStub V, StoreDelete decodeVal db [] = .ok (none, [])) ∧
    (∀ (db : DBStub V) (c : Str),
        StoreDeleteEdge decodeVal db [] c = .ok (none, [])) ∧
    (∀ (db : DBStub V) (p : Str) (res : Option GoErr × List (DBCall V)),
        p ≠ [] → StoreDeleteEdge decodeVal db p [] = .ok res →
        DBCall.queryByID fieldID p ∈ res.2) := by
  refine ⟨?_, ?_, ?_, ?_, ?_, ?_, ?_⟩
  · intro db nodes n hmem hid
    rw [StorePut, convertAll_member_empty nodes n hmem hid]
  · intro db data
    rw [StorePutNodeData, if_pos rfl]
  · intro db edges
    rw [StorePutEdges, if_pos rfl]
  · intro db p c data h
    rw [StorePutEdgeData, if_pos h]
  · intro db
    rfl
  · intro db c
    rfl
  · intro db p res hp h
    rcases StoreGet_shape decodeVal db p hp with hg | ⟨res0, hg⟩
    · rw [StoreDeleteEdge, hg] at h
      cases h
    · obtain ⟨n0, ok0, err0⟩ := res0
      cases err0 with
      | some e =>
        have hcomp : StoreDeleteEdge decodeVal db p [] =
            PanicOr.ok (some e, [DBCall.queryByID fieldID p]) := by
          rw [StoreDeleteEdge, hg]
        rw [hcomp] at h
        injection h with h2
        subst h2
        simp
      | none =>
        cases ok0 with
        | false =>
          have hcomp : StoreDeleteEdge decodeVal db p [] =
              PanicOr.ok (none, [DBCall.queryByID fieldID p]) := by
            rw [StoreDeleteEdge, hg]
            rfl
          rw [hcomp] at h
          injection h with h2
          subst h2
          simp
        | true =>
          cases hd : db.deleteErr with
          | some e =>
            have hcomp : StoreDeleteEdge decodeVal db p [] =
                PanicOr.ok (some e, [DBCall.queryByID fieldID p,
                  DBCall.batchDelete (deleteEdgeKeys n0 [])]) := by
              rw [StoreDeleteEdge, hg, hd]
              rfl
            rw [hcomp] at h
            injection h with h2
            subst h2
            simp
          | none =>
            have hcomp : StoreDeleteEdge decodeVal db p [] =
                PanicOr.ok (none, [DBCall.queryByID fieldID p,
                  DBCall.batchDelete (deleteEdgeKeys n0 [])]) := by
              rw [StoreDeleteEdge, hg, hd]
              rfl
            rw [hcomp] at h
            injection h with h2
            subst h2
            simp

/-- Stub with a single existing node record `nodeA`, used to show calls. -/
def c6Stub : DBStub Nat :=
  { queryItems := [{ idAttr := some (some (ascii "nodeA")),
                     rngAttr := some (some (ascii "node")) }] }

/-- Witness for C6 amended: `Put` of a node with an empty ID at a concrete
stub, and `DeleteEdge(nodeA, "")` issuing its query. -/
theorem emptyID_validation_witness :
    StorePut ({} : DBStub Nat) [{ ID := [] }] = (.error .missingNodeID, []) ∧
    DBCall.queryByID fieldID (ascii "nodeA") ∈
      ((none : Option GoErr),
        [DBCall.queryByID (V := Nat) fieldID (ascii "nodeA"),
         DBCall.batchDelete []]).2 :=
  ⟨(emptyID_validation dv0).1 {} [{ ID := [] }] { ID := [] }
      (List.mem_cons_self _ _) rfl,
    (emptyID_validation dv0).2.2.2.2.2.2 c6Stub (ascii "nodeA")
      (none, [DBCall.queryByID fieldID (ascii "nodeA"), DBCall.batchDelete []])
      (by decide) (by decide)⟩

theorem populate_preserves_ID {V : Type} [DecidableEq V] (dv : Option V → V)
    (itm : Item V) (n n' : Node V)
    (hnm : ∀ rs, itm.rngAttr = some (some rs) → Decode rs ≠ some .Node)
    (h : populateNodeFromRecord dv itm n = .ok (.ok n')) :
    n'.ID = n.ID := by
  cases hr : itm.rngAttr with
  | none => simp [populateNodeFromRecord, hr] at h
  | some o =>
    cases o with
    | none => simp [populateNodeFromRecord, hr] at h
    | some rs =>
      cases hd : Decode rs with
      | none => simp [populateNodeFromRecord, hr, hd] at h
      | some rf =>
        cases rf with
        | Node => exact absurd hd (hnm rs hr)
        | NodeData t =>
          cases ht : itm.tAttr with
          | none => simp [populateNodeFromRecord, hr, hd, ht] at h
          | some o2 =>
            cases o2 with
            | none => simp [populateNodeFromRecord, hr, hd, ht] at h
            | some tn =>
              simp only [populateNodeFromRecord, hr, hd, ht, PanicOr.ok.injEq,
                Except.ok.injEq] at h
              subst h
              rfl
        | Child cid =>
          simp only [populateNodeFromRecord, hr, hd, PanicOr.ok.injEq,
            Except.ok.injEq] at h
          subst h
          split <;> rfl
        | ChildData cid t =>
          cases ht : itm.tAttr with
          | none => simp [populateNodeFromRecord, hr, hd, ht] at h
          | some o2 =>
            cases o2 with
            | none => simp [populateNodeFromRecord, hr, hd, ht] at h
            | some tn =>
              simp only [populateNodeFromRecord, hr, hd, ht, PanicOr.ok.injEq,
                Except.ok.injEq] at h
              subst h
              split <;> rfl
        | Parent pid =>
          simp only [populateNodeFromRecord, hr, hd, PanicOr.ok.injEq,
            Except.ok.injEq] at h
          subst h
          split <;> rfl
        | ParentData pid t =>
          cases ht : itm.tAttr with
          | none => simp [populateNodeFromRecord, hr, hd, ht] at h
          | some o2 =>
            cases o2 with
            | none => simp [populateNodeFromRecord, hr, hd, ht] at h
            | some tn =>
              simp only [populateNodeFromRecord, hr, hd, ht, PanicOr.ok.injEq,
                Except.ok.injEq] at h
              subst h
              split <;> rfl

theorem foldRecords_preserves_ID {V : Type} [DecidableEq V] (dv : Option V → V) :
    ∀ (items : List (Item V)) (n n' : Node V) (oe : Option GoErr),
      (∀ itm ∈ items, ∀ rs, itm.rngAttr = some (some rs) → Decode rs ≠ some .Node) →
      foldRecords dv items n = .ok (n', oe) → n'.ID = n.ID
  | [], n, n', oe, _, h => by
    rw [foldRecords] at h
    injection h with h1
    injection h1 with h2 h3
    rw [← h2]
  | itm :: rest, n, n', oe, hnm, h => by
    rw [foldRecords] at h
    cases hp : populateNodeFromRecord dv itm n with
    | panic =>
      rw [hp] at h
      cases h
    | ok exc =>
      cases exc with
      | error e =>
        rw [hp] at h
        injection h with h1
        injection h1 with h2 h3
        rw [← h2]
      | ok n2 =>
        rw [hp] at h
        have htail := foldRecords_preserves_ID dv rest n2 n' oe
          (fun itm2 hm => hnm itm2 (List.mem_cons_of_mem _ hm)) h
        rw [htail,
          populate_preserves_ID dv itm n n2 (hnm itm (List.mem_cons_self _ _)) hp]

/-- Stub returning one record that is not a node marker. -/
def c5Stub : DBStub Nat :=
  { queryItems := [{ idAttr := some (some (ascii "x")),
                     rngAttr := some (some (ascii "child/c")) }] }

/-- C5 counterexample: the KVClient query returns one record (a child edge
marker, as `PutEdges` writes without a node marker), yet `Get` returns
ok = false with a nil error — so "ok=false iff the query returned no records"
fails in the only-if direction. -/
theorem get_ok_false_with_records_counterexample :
    c5Stub.queryItems.length = 1 ∧
    StoreGet dv0 c5Stub (ascii "x") =
      .ok (⟨{ Children := [{ ID := ascii "c" }] }, false, none⟩,
        [.queryByID fieldID (ascii "x")]) := by
  decide

/-- C5 amended: if the query returned no records, `Get` reports ok = false
with a nil error (not-found is not an error); in general, on a nil-error
return ok = false iff the accumulated node ID stayed empty, and whenever no
returned record's range key decodes to the Node marker the ID stays empty, so
ok = false even when records were returned. -/
theorem get_not_found_iff_no_marker {V : Type} [DecidableEq V]
    (dv : Option V → V) (db : DBStub V) (id : Str)
    (hid : id ≠ []) (hq : db.queryErr = none) :
    (db.queryItems = [] →
      StoreGet dv db id = .ok (⟨{}, false, none⟩, [.queryByID fieldID id])) ∧
    (∀ res calls, StoreGet dv db id = .ok (res, calls) → res.err = none →
      (res.ok = false ↔ res.n.ID = [])) ∧
    ((∀ itm ∈ db.queryItems, ∀ rs, itm.rngAttr = some (some rs) →
        Decode rs ≠ some .Node) →
      ∀ res calls, StoreGet dv db id = .ok (res, calls) → res.ok = false) := by
  refine ⟨?_, ?_, ?_⟩
  · intro hempty
    rw [StoreGet, if_neg hid, hq, hempty]
    rfl
  · intro res calls h herr
    rw [StoreGet, if_neg hid, hq] at h
    cases hf : foldRecords dv db.queryItems {} with
    | panic =>
      rw [hf] at h
      cases h
    | ok pr =>
      obtain ⟨n, oe⟩ := pr
      cases oe with
      | some e =>
        rw [hf] at h
        injection h with h1
        injection h1 with h2 h3
        rw [← h2] at herr
        cases herr
      | none =>
        rw [hf] at h
        injection h with h1
        injection h1 with h2 h3
        rw [← h2]
        simp [decide_eq_false_iff_not]
  · intro hnm res calls h
    rw [StoreGet, if_neg hid, hq] at h
    cases hf : foldRecords dv db.queryItems {} with
    | panic =>
      rw [hf] at h
      cases h
    | ok pr =>
      obtain ⟨n, oe⟩ := pr
      have hID : n.ID = ([] : Str) :=
        foldRecords_preserves_ID dv db.queryItems {} n oe hnm hf
      cases oe with
      | some e =>
        rw [hf] at h
        injection h with h1
        injection h1 with h2 h3
        rw [← h2]
      | none =>
        rw [hf] at h
        injection h with h1
        injection h1 with h2 h3
        rw [← h2]
        simp [hID]

/-- Witness for C5 amended: a stub whose query returns nothing. -/
theorem get_not_found_iff_no_marker_witness :
    (ascii "x" : Str) ≠ [] ∧
    StoreGet dv0 ({} : DBStub Nat) (ascii "x") =
      .ok (⟨{}, false, none⟩, [.queryByID fieldID (ascii "x")]) :=
  ⟨by decide,
    (get_not_found_iff_no_marker dv0 {} (ascii "x") (by decide) rfl).1 rfl⟩

/-! ## Totality of Get over arbitrary record sets -/

/-- Well-formedness of a record for the `Get` fold: a record whose range key
decodes to the Node marker carries a set `id` attribute, and one whose range
key decodes to a data kind (NodeData, ChildData, ParentData) carries a set
`t` attribute.  Records written by this library satisfy this. -/
def wfItem {V : Type} (itm : Item V) : Bool :=
  match itm.rngAttr with
  | some (some rs) =>
    match Decode rs with
    | some .Node => (itm.idAttr.getD none).isSome
    | some (.NodeData _) => (itm.tAttr.getD none).isSome
    | some (.ChildData _ _) => (itm.tAttr.getD none).isSome
    | some (.ParentData _ _) => (itm.tAttr.getD none).isSome
    | _ => true
  | _ => true

theorem populate_wf_no_panic {V : Type} [DecidableEq V] (dv : Option V → V)
    (itm : Item V) (n : Node V) (hwf : wfItem itm = true) :
    populateNodeFromRecord dv itm n ≠ .panic := by
  cases hr : itm.rngAttr with
  | none => simp [populateNodeFromRecord, hr]
  | some o =>
    cases o with
    | none => simp [populateNodeFromRecord, hr]
    | some rs =>
      cases hd : Decode rs with
      | none => simp [populateNodeFromRecord, hr, hd]
      | some rf =>
        cases rf with
        | Node =>
          simp only [wfItem, hr, hd] at hwf
          cases hi : itm.idAttr with
          | none => rw [hi] at hwf; simp at hwf
          | some o2 =>
            cases o2 with
            | none => rw [hi] at hwf; simp at hwf
            | some i => simp [populateNodeFromRecord, hr, hd, hi]
        | NodeData t =>
          simp only [wfItem, hr, hd] at hwf
          cases ht : itm.tAttr with
          | none => rw [ht] at hwf; simp at hwf
          | some o2 =>
            cases o2 with
            | none => rw [ht] at hwf; simp at hwf
            | some tn => simp [populateNodeFromRecord, hr, hd, ht]
        | Child cid => simp [populateNodeFromRecord, hr, hd]
        | ChildData cid t =>
          simp only [wfItem, hr, hd] at hwf
          cases ht : itm.tAttr with
          | none => rw [ht] at hwf; simp at hwf
          | some o2 =>
            cases o2 with
            | none => rw [ht] at hwf; simp at hwf
            | some tn => simp [populateNodeFromRecord, hr, hd, ht]
        | Parent pid => simp [populateNodeFromRecord, hr, hd]
        | ParentData pid t =>
          simp only [wfItem, hr, hd] at hwf
          cases ht : itm.tAttr with
          | none => rw [ht] at hwf; simp at hwf
          | some o2 =>
            cases o2 with
            | none => rw [ht] at hwf; simp at hwf
            | some tn => simp [populateNodeFromRecord, hr, hd, ht]

theorem foldRecords_wf_no_panic {V : Type} [DecidableEq V] (dv : Option V → V) :
    ∀ (items : List (Item V)) (n : Node V),
      (∀ itm ∈ items, wfItem itm = true) → foldRecords dv items n ≠ .panic
  | [], n, _ => by
    rw [foldRecords]
    intro h
    cases h
  | itm :: rest, n, hwf => by
    rw [foldRecords]
    cases hp : populateNodeFromRecord dv itm n with
    | panic =>
      exact absurd hp (populate_wf_no_panic dv itm n (hwf itm (List.mem_cons_self _ _)))
    | ok exc =>
      cases exc with
      | error e =>
        intro h
        cases h
      | ok n2 =>
        exact foldRecords_wf_no_panic dv rest n2
          fun itm2 hm => hwf itm2 (List.mem_cons_of_mem _ hm)

/-- Stub returning a NodeData-kind record that lacks the `t` attribute. -/
def c10Stub : DBStub Nat :=
  { queryItems := [{ idAttr := some (some (ascii "x")),
                     rngAttr := some (some (ascii "node/data/T")) }] }

/-- Stub returning a node marker that lacks the `id` attribute. -/
def c10bStub : DBStub Nat :=
  { queryItems := [{ rngAttr := some (some (ascii "node")) }] }

/-- C10 counterexample: `Get` is not total — a returned record whose range
key decodes to NodeData but which lacks the `t` attribute makes the fold
dereference a nil pointer (`*itm[fieldRecordDataType].S`), and a node marker
lacking the `id` attribute does the same via `*itm[fieldID].S`. -/
theorem get_panics_counterexample :
    StoreGet dv0 c10Stub (ascii "x") = .panic ∧
    StoreGet dv0 c10bStub (ascii "x") = .panic := by
  decide

/-- C10 amended: `Get` never panics over record lists whose Node-marker
records carry the `id` attribute and whose data-kind records carry the `t`
attribute; malformed range keys (missing, nil, undecodable) produce error
returns, not panics. -/
theorem get_total_on_wf_records {V : Type} [DecidableEq V] (dv : Option V → V)
    (db : DBStub V) (id : Str)
    (hwf : ∀ itm ∈ db.queryItems, wfItem itm = true) :
    StoreGet dv db id ≠ .panic := by
  rw [StoreGet]
  by_cases hid : id = []
  · rw [if_pos hid]
    intro h
    cases h
  · rw [if_neg hid]
    cases hq : db.queryErr with
    | some e =>
      intro h
      cases h
    | none =>
      cases hf : foldRecords dv db.queryItems {} with
      | panic => exact absurd hf (foldRecords_wf_no_panic dv db.queryItems {} hwf)
      | ok pr =>
        obtain ⟨n, oe⟩ := pr
        cases oe with
        | some e =>
          intro h
          cases h
        | none =>
          intro h
          cases h

/-- Stub whose records are all well-formed for the fold. -/
def c10wfStub : DBStub Nat :=
  { queryItems :=
      [ { idAttr := some (some (ascii "x")), rngAttr := some (some (ascii "node")) },
        { idAttr := some (some (ascii "x")),
          rngAttr := some (some (ascii "node/data/T")),
          tAttr := some (some (ascii "T")), payload := some 5 } ] }

/-- Witness for C10 amended at a concrete well-formed record list. -/
theorem get_total_on_wf_records_witness :
    (∀ itm ∈ c10wfStub.queryItems, wfItem itm = true) ∧
    StoreGet dv0 c10wfStub (ascii "x") ≠ .panic :=
  ⟨by decide, get_total_on_wf_records dv0 c10wfStub (ascii "x") (by decide)⟩

/-- Stub for the DeleteEdge no-matching-child scenario of
`TestStoreDeleteEdge`: the node exists, has no children, and the mocked
BatchDelete is primed with an error that the test treats as "unexpected
call". -/
def c8Stub : DBStub Nat :=
  { queryItems := [{ idAttr := some (some (ascii "nodeA")),
                     rngAttr := some (some (ascii "node")) }],
    deleteErr := some (.clientErr 0) }

/-- C8: evaluation of `DeleteEdge` at the test's no-matching-child input.
The node is found but has no child `"any"`, yet the code still issues a
BatchDelete call (with an empty key list) and surfaces that call's error —
whereas the claim and the repository's own test
(`TestStoreDeleteEdge`, "A node record which doesn't have any children
doesn't delete anything") require returning nil without any BatchDelete. -/
theorem deleteEdge_no_match_still_calls_batchDelete :
    StoreDeleteEdge dv0 c8Stub (ascii "nodeA") (ascii "any") =
      .ok (some (.clientErr 0),
        [.queryByID fieldID (ascii "nodeA"), .batchDelete []]) := by
  decide

end Pregel

namespace Graph

/-! ## The per-request node batch loader (serving layer)

Modelled from the spec: the `NodeLoader` generated by dataloaden
(`NewNodeLoader`, `LoadAll`), configured by `NodeDataLoaderMiddlware`, is not
under `src/` — only its middleware configuration, its stats counters and its
test are.  Spec §4.5: a fresh loader per request memoizes every ID it has
resolved or is resolving, so repeated IDs within the request — even across
separate `LoadAll` calls — are fetched at most once, and `LoadAll` returns
results in input order.  Batching and intra-batch parallelism only affect
latency, so the request-level contract is modelled as sequential memoized
resolution; `nodesLoaded` mirrors the `NodesLoaded` stat (one underlying
`NodeGetter.Get` per cache miss). -/

/-- Modelled from the spec: loader state — memoized results plus the count of
underlying node gets performed. -/
structure NodeLoader (R : Type) where
  memo : List (Str × R) := []
  nodesLoaded : Nat := 0

/-- Modelled from the spec: lookup of a memoized ID. -/
def memoFind {R : Type} (m : List (Str × R)) (id : Str) : Option R :=
  match m with
  | [] => none
  | kv :: rest => if kv.1 = id then some kv.2 else memoFind rest id

/-- Modelled from the spec: resolve one ID — a memo hit returns the cached
result with no underlying call; a miss performs one `Get` and memoizes. -/
def NodeLoader.load {R : Type} (get : Str → R) (l : NodeLoader R) (id : Str) :
    R × NodeLoader R :=
  match memoFind l.memo id with
  | some r => (r, l)
  | none =>
    (get id, { memo := l.memo ++ [(id, get id)], nodesLoaded := l.nodesLoaded + 1 })

/-- Modelled from the spec: `LoadAll` resolves the given IDs and returns the
results in input order. -/
def NodeLoader.LoadAll {R : Type} (get : Str → R) (l : NodeLoader R) :
    List Str → List R × NodeLoader R
  | [] => ([], l)
  | id :: rest =>
    let p := l.load get id
    let q := p.2.LoadAll get rest
    (p.1 :: q.1, q.2)

/-- Modelled from the spec: consecutive `LoadAll` calls within one request
(the loader instance is shared across them, never across requests). -/
def NodeLoader.runBatches {R : Type} (get : Str → R) (l : NodeLoader R) :
    List (List Str) → List (List R) × NodeLoader R
  | [] => ([], l)
  | ids :: rest =>
    let p := l.LoadAll get ids
    let q := p.2.runBatches get rest
    (p.1 :: q.1, q.2)

/-- Loader invariant: memo keys are distinct, the get counter equals the memo
size, and every memoized value is the getter's answer for its key. -/
def LoaderInv {R : Type} (get : Str → R) (l : NodeLoader R) : Prop :=
  (l.memo.map Prod.fst).Nodup ∧ l.nodesLoaded = l.memo.length ∧
    ∀ kv ∈ l.memo, kv.2 = get kv.1

theorem memoFind_some {R : Type} (get : Str → R) :
    ∀ (m : List (Str × R)) (id : Str) (r : R),
      (∀ kv ∈ m, kv.2 = get kv.1) → memoFind m id = some r →
      r = get id ∧ id ∈ m.map Prod.fst
  | kv :: rest, id, r, hv, h => by
    rw [memoFind] at h
    by_cases hk : kv.1 = id
    · rw [if_pos hk] at h
      injection h with h2
      subst h2
      subst hk
      exact ⟨hv kv (List.mem_cons_self _ _), by simp⟩
    · rw [if_neg hk] at h
      have := memoFind_some get rest id r
        (fun kv2 hm => hv kv2 (List.mem_cons_of_mem _ hm)) h
      exact ⟨this.1, List.mem_cons_of_mem _ this.2⟩

theorem memoFind_none {R : Type} :
    ∀ (m : List (Str × R)) (id : Str), memoFind m id = none →
      id ∉ m.map Prod.fst
  | [], id, _ => by simp
  | kv :: rest, id, h => by
    rw [memoFind] at h
    by_cases hk : kv.1 = id
    · rw [if_pos hk] at h
      cases h
    · rw [if_neg hk] at h
      simp only [List.map_cons, List.mem_cons]
      push_neg
      exact ⟨fun hEq => hk hEq.symm, memoFind_none rest id h⟩

theorem load_spec {R : Type} (get : Str → R) (l : NodeLoader R) (id : Str)
    (hinv : LoaderInv get l) :
    (l.load get id).1 = get id ∧ LoaderInv get (l.load get id).2 ∧
    ((l.load get id).2.memo.map Prod.fst).toFinset =
      insert id (l.memo.map Prod.fst).toFinset := by
  obtain ⟨hnd, hlen, hval⟩ := hinv
  rw [NodeLoader.load]
  cases hm : memoFind l.memo id with
  | some r =>
    obtain ⟨hr, hmem⟩ := memoFind_some get l.memo id r hval hm
    refine ⟨hr, ⟨hnd, hlen, hval⟩, ?_⟩
    rw [Finset.insert_eq_self.mpr (List.mem_toFinset.mpr hmem)]
  | none =>
    have hnot := memoFind_none l.memo id hm
    refine ⟨rfl, ⟨?_, ?_, ?_⟩, ?_⟩
    · simp only [List.map_append, List.map_cons, List.map_nil]
      exact (List.nodup_append_comm.mp (by simp [hnd, hnot]))
    · simp [hlen]
    · intro kv hkv
      rcases List.mem_append.mp hkv with hkv | hkv
      · exact hval kv hkv
      · simp only [List.mem_singleton] at hkv
        subst hkv
        rfl
    · simp only [List.map_append, List.map_cons, List.map_nil,
        List.toFinset_append]
      simp [Finset.union_comm]
      rw [Finset.insert_eq]

theorem LoadAll_spec {R : Type} (get : Str → R) :
    ∀ (ids : List Str) (l : NodeLoader R), LoaderInv get l →
      (l.LoadAll get ids).1 = ids.map get ∧
      LoaderInv get (l.LoadAll get ids).2 ∧
      ((l.LoadAll get ids).2.memo.map Prod.fst).toFinset =
        (l.memo.map Prod.fst).toFinset ∪ ids.toFinset
  | [], l, hinv => by
    refine ⟨rfl, hinv, ?_⟩
    simp [NodeLoader.LoadAll]
  | id :: rest, l, hinv => by
    obtain ⟨h1, h2, h3⟩ := load_spec get l id hinv
    obtain ⟨g1, g2, g3⟩ := LoadAll_spec get rest (l.load get id).2 h2
    refine ⟨?_, g2, ?_⟩
    · simp only [NodeLoader.LoadAll, List.map_cons]
      rw [h1, g1]
    · simp only [NodeLoader.LoadAll]
      rw [g3, h3, List.toFinset_cons]
      ext x
      simp only [Finset.mem_union, Finset.mem_insert]
      tauto

theorem runBatches_spec {R : Type} (get : Str → R) :
    ∀ (batches : List (List Str)) (l : NodeLoader R), LoaderInv get l →
      (l.runBatches get batches).1 = batches.map (fun ids => ids.map get) ∧
      LoaderInv get (l.runBatches get batches).2 ∧
      ((l.runBatches get batches).2.memo.map Prod.fst).toFinset =
        (l.memo.map Prod.fst).toFinset ∪ (batches.flatten).toFinset
  | [], l, hinv => by
    refine ⟨rfl, hinv, ?_⟩
    simp [NodeLoader.runBatches]
  | ids :: rest, l, hinv => by
    obtain ⟨h1, h2, h3⟩ := LoadAll_spec get ids l hinv
    obtain ⟨g1, g2, g3⟩ := runBatches_spec get rest _ h2
    refine ⟨?_, g2, ?_⟩
    · simp only [NodeLoader.runBatches, List.map_cons]
      rw [h1, g1]
    · simp only [NodeLoader.runBatches]
      rw [g3, h3]
      simp only [List.flatten_cons, List.toFinset_append]
      rw [Finset.union_assoc]

/-- C9: within one request the loader memoizes by ID: `LoadAll ["a","a"]`
yields 2 results in input order while performing exactly 1 underlying get;
across any sequence of `LoadAll` calls from a fresh loader, the results of
each call are in input order and the total number of underlying gets equals
the number of *distinct* IDs requested — repeated IDs are fetched at most
once. -/
theorem nodeLoader_dedup_memoizes {R : Type} (get : Str → R) :
    (∀ a : Str, NodeLoader.LoadAll get {} [a, a] =
      ([get a, get a], { memo := [(a, get a)], nodesLoaded := 1 })) ∧
    (∀ batches : List (List Str),
      (NodeLoader.runBatches get ({} : NodeLoader R) batches).1 =
        batches.map fun ids => ids.map get) ∧
    (∀ batches : List (List Str),
      (NodeLoader.runBatches get ({} : NodeLoader R) batches).2.nodesLoaded =
        (batches.flatten).toFinset.card) := by
  have hfresh : LoaderInv get ({} : NodeLoader R) :=
    ⟨List.nodup_nil, rfl, by simp⟩
  refine ⟨?_, ?_, ?_⟩
  · intro a
    simp [NodeLoader.LoadAll, NodeLoader.load, memoFind]
  · intro batches
    exact (runBatches_spec get batches {} hfresh).1
  · intro batches
    obtain ⟨h1, hinv2, h3⟩ := runBatches_spec get batches {} hfresh
    obtain ⟨hnd, hlen, hval⟩ := hinv2
    have hkeys : (((NodeLoader.runBatches get ({} : NodeLoader R) batches).2.memo.map
        Prod.fst).toFinset) = (batches.flatten).toFinset := by
      rw [h3]
      simp
    rw [hlen, ← hkeys, List.toFinset_card_of_nodup hnd]
    simp

end Graph
